import Mathlib

/-!
# Zoo animal intake report (`zooPractice.cpp`)

A shallow embedding of the program: the animal records with their virtual
methods, the factory `createAnimal`, the line parser built from
`std::getline`, `operator>>(int&)` and `ignore`, the read loop filling the
animal vector and the `std::map` of species counts, and the report renderer.

Conventions of the embedding.
* A `std::string` is a `List Char`, one `Char` per `char`.
* An `int` is an `Int`; the only place where the 32-bit range decides the
  behaviour is `operator>>(int&)`, which fails outside `[INT_MIN, INT_MAX]`.
  The species counters are incremented once per accepted line and are kept
  unbounded (an input of fewer than `2^31` lines never reaches the limit).
* A `float` that is only stored and printed is a rational number.
* A stream is its unread buffer together with its `eofbit`; `failbit` is the
  `none` of the operation that sets it, because the parse condition stops at
  the first failing operation.
* `std::map<std::string, int>` is an association list kept in strictly
  ascending key order, the order in which the map is iterated.
-/

namespace Zoo

/-- A `std::string`. -/
abbrev Str := List Char

/-! ## Number formatting (`operator<<`, `std::to_string`) -/

/-- Decimal text of an unsigned value (`operator<<(size_t)`). -/
def natToString (n : Nat) : Str := Nat.toDigits 10 n

/-- Decimal text of an `int` (`operator<<(int)`, `std::to_string(int)`). -/
def intToString : Int → Str
  | Int.ofNat n => natToString n
  | Int.negSucc n => '-' :: natToString (n + 1)

/-- Left-pads a digit string with zeros up to six characters. -/
def pad6 (ds : Str) : Str := List.replicate (6 - ds.length) '0' ++ ds

/-- The text `std::to_string(float)` produces for a finite value: fixed
notation with six decimals, rounded half to even. -/
def floatToString (x : Rat) : Str :=
  let n := x.num.natAbs * 1000000
  let q := n / x.den
  let r := n % x.den
  let m := if x.den < 2 * r ∨ (2 * r = x.den ∧ q % 2 = 1) then q + 1 else q
  (if x < 0 then ['-'] else []) ++ natToString (m / 1000000) ++ '.' :: pad6 (natToString (m % 1000000))

/-! ## Animal records -/

/-- The dynamic type of a record together with the fields the subclass adds. -/
inductive Variant where
  | generic
  | hyena (isLaughing : Bool)
  | lion (isMale : Bool) (maneLength : Rat)
  | tiger (stripeCount : Int)
  | bear (bearType : Str) (isHibernating : Bool)
  deriving DecidableEq, Repr

/-- An object of class `Animal` or of one of its subclasses. -/
structure Animal where
  name : Str
  age : Int
  species : Str
  variant : Variant
  deriving DecidableEq, Repr

/-- `Animal::getName`. -/
def getName (a : Animal) : Str := a.name

/-- `Animal::getAge`. -/
def getAge (a : Animal) : Int := a.age

/-- `Animal::getSpecies`. -/
def getSpecies (a : Animal) : Str := a.species

/-- Constructor `Animal(name, age, species)`. -/
def mkAnimal (name : Str) (age : Int) (species : Str) : Animal :=
  { name := name, age := age, species := species, variant := Variant.generic }

/-- Constructor `Hyena(name, age, isLaughing = true)`. -/
def mkHyena (name : Str) (age : Int) (isLaughing : Bool := true) : Animal :=
  { name := name, age := age, species := "Hyena".toList, variant := Variant.hyena isLaughing }

/-- Constructor `Lion(name, age, isMale = false, maneLength = 0.0)`. -/
def mkLion (name : Str) (age : Int) (isMale : Bool := false) (maneLength : Rat := 0) : Animal :=
  { name := name, age := age, species := "Lion".toList, variant := Variant.lion isMale maneLength }

/-- Constructor `Tiger(name, age, stripeCount = 100)`. -/
def mkTiger (name : Str) (age : Int) (stripeCount : Int := 100) : Animal :=
  { name := name, age := age, species := "Tiger".toList, variant := Variant.tiger stripeCount }

/-- Constructor `Bear(name, age, bearType = "Grizzly", isHibernating = false)`. -/
def mkBear (name : Str) (age : Int) (bearType : Str := "Grizzly".toList)
    (isHibernating : Bool := false) : Animal :=
  { name := name, age := age, species := "Bear".toList,
    variant := Variant.bear bearType isHibernating }

/-- Virtual method `makeSound`, dispatched on the dynamic type. -/
def makeSound (a : Animal) : Str :=
  match a.variant with
  | Variant.generic => "Generic animal sound".toList
  | Variant.hyena _ => "Hee-hee-hee!".toList
  | Variant.lion _ _ => "ROAR!".toList
  | Variant.tiger _ => "Growl!".toList
  | Variant.bear _ isHibernating => if isHibernating then "Zzzzz...".toList else "GROWL!".toList

/-- Virtual method `getSpecialCharacteristic`, dispatched on the dynamic type. -/
def getSpecialCharacteristic (a : Animal) : Str :=
  match a.variant with
  | Variant.generic => "No special characteristic".toList
  | Variant.hyena isLaughing =>
      if isLaughing then "Laughing hyena".toList else "Not currently laughing".toList
  | Variant.lion isMale maneLength =>
      if isMale then "Male lion with ".toList ++ floatToString maneLength ++ " inch mane".toList
      else "Female lion (huntress)".toList
  | Variant.tiger stripeCount =>
      "Has approximately ".toList ++ intToString stripeCount ++ " stripes".toList
  | Variant.bear bearType isHibernating =>
      bearType ++ " bear".toList ++ (if isHibernating then " (hibernating)".toList else [])

/-- `Lion::setIsMale`; a record of another dynamic type has no such method
and is returned unchanged. -/
def setIsMale (a : Animal) (male : Bool) : Animal :=
  match a.variant with
  | Variant.lion _ maneLength =>
      { a with variant := Variant.lion male (if !male then 0 else maneLength) }
  | _ => a

/-- `Lion::setManeLength`; a record of another dynamic type has no such
method and is returned unchanged. -/
def setManeLength (a : Animal) (length : Rat) : Animal :=
  match a.variant with
  | Variant.lion isMale maneLength =>
      { a with variant := Variant.lion isMale (if isMale then length else maneLength) }
  | _ => a

/-- Factory function `createAnimal(species, name, age)`. -/
def createAnimal (species : Str) (name : Str) (age : Int) : Animal :=
  if species = "Hyena".toList then mkHyena name age
  else if species = "Lion".toList then mkLion name age
  else if species = "Tiger".toList then mkTiger name age
  else if species = "Bear".toList then mkBear name age
  else mkAnimal name age species

/-! ## Input streams -/

/-- An input stream: the characters not yet read and the `eofbit`. -/
structure IStream where
  buf : Str
  eof : Bool
  deriving DecidableEq, Repr

/-- `std::istringstream iss(line)`: a fresh stream over `line`. -/
def IStream.ofStr (line : Str) : IStream := { buf := line, eof := false }

/-- `std::isspace` in the "C" locale. -/
def isspace (c : Char) : Bool := c = ' ' || (9 ≤ c.toNat && c.toNat ≤ 13)

/-- The characters `0` to `9`. -/
def isdigit (c : Char) : Bool := 48 ≤ c.toNat && c.toNat ≤ 57

/-- Value of a run of decimal digits, most significant first. -/
def digitsVal (ds : Str) : Nat := ds.foldl (fun v c => 10 * v + (c.toNat - 48)) 0

/-- `INT_MIN` of a 32-bit `int`. -/
def INT_MIN : Int := -2147483648

/-- `INT_MAX` of a 32-bit `int`. -/
def INT_MAX : Int := 2147483647

/-- `std::getline(s, str, delim)`. Fails on a stream that is not good and
when nothing at all could be extracted; the delimiter is extracted and
dropped; reaching the end of the buffer sets `eofbit`. -/
def getline (s : IStream) (delim : Char) : Option (Str × IStream) :=
  if s.eof then none
  else
    match s.buf.span (fun c => c != delim) with
    | (str, _ :: rest) => some (str, { buf := rest, eof := false })
    | (str, []) => if str = [] then none else some (str, { buf := [], eof := true })

/-- `s >> age` for an `int`. Fails on a stream that is not good; skips
leading whitespace; reads an optional sign and the longest run of digits;
fails when there is no digit or when the value does not fit an `int`; sets
`eofbit` when the digits run to the end of the buffer. -/
def readInt (s : IStream) : Option (Int × IStream) :=
  if s.eof then none
  else
    match s.buf.dropWhile isspace with
    | [] => none
    | c :: cs =>
      let body := if c = '-' ∨ c = '+' then cs else c :: cs
      let ds := body.takeWhile isdigit
      let rest := body.dropWhile isdigit
      let v : Int := if c = '-' then -(digitsVal ds : Int) else (digitsVal ds : Int)
      if ds = [] then none
      else if v < INT_MIN ∨ INT_MAX < v then none
      else some (v, { buf := rest, eof := rest.isEmpty })

/-- `s.ignore()`: extracts and discards one character, whatever it is.
Fails on a stream that is not good; on an exhausted buffer it only sets
`eofbit`. -/
def ignore (s : IStream) : Option IStream :=
  if s.eof then none
  else
    match s.buf with
    | [] => some { buf := [], eof := true }
    | _ :: rest => some { buf := rest, eof := false }

/-! ## The line parser -/

/-- The three local variables `name`, `age`, `species` after a successful
parse of one line. -/
structure IntakeRecord where
  name : Str
  age : Int
  species : Str
  deriving DecidableEq, Repr

/-- The parse condition of the read loop:
`getline(iss, name, ',') && iss >> age && iss.ignore() && getline(iss, species)`. -/
def parseLine (line : Str) : Option IntakeRecord :=
  match getline (IStream.ofStr line) ',' with
  | none => none
  | some (name, s1) =>
    match readInt s1 with
    | none => none
    | some (age, s2) =>
      match ignore s2 with
      | none => none
      | some s3 =>
        match getline s3 '\n' with
        | none => none
        | some (species, _) => some { name := name, age := age, species := species }

/-! ## The read loop -/

/-- The statement `speciesCount[species]++` on the map in key order: a key
not yet present is inserted at its place with the value `0` and then
incremented. -/
def mapIncr (k : Str) : List (Str × Int) → List (Str × Int)
  | [] => [(k, 1)]
  | (k', v) :: m =>
    if k < k' then (k, 1) :: (k', v) :: m
    else if k = k' then (k', v + 1) :: m
    else (k', v) :: mapIncr k m

/-- The two containers of `main`: the vector `animals` and the map
`speciesCount`. -/
structure ZooState where
  animals : List Animal
  speciesCount : List (Str × Int)
  deriving DecidableEq, Repr

/-- The containers before the first line is read. -/
def ZooState.init : ZooState := { animals := [], speciesCount := [] }

/-- One iteration of the read loop on the line `line`. -/
def processLine (st : ZooState) (line : Str) : ZooState :=
  match parseLine line with
  | none => st
  | some r =>
    { animals := st.animals ++ [createAnimal r.species r.name r.age],
      speciesCount := mapIncr r.species st.speciesCount }

/-- The read loop over the lines of the input file, in order. -/
def readLoop (lines : List Str) : ZooState := lines.foldl processLine ZooState.init

/-- The lines `while (std::getline(inputFile, line))` delivers; `fuel`
bounds the number of iterations. -/
def readLines : Nat → IStream → List Str
  | 0, _ => []
  | fuel + 1, s =>
    match getline s '\n' with
    | none => []
    | some (line, s') => line :: readLines fuel s'

/-- The lines of a file with the content `content`. Every iteration that
delivers a line shortens the buffer or sets `eofbit`, so `content.length + 1`
iterations suffice. -/
def fileLines (content : Str) : List Str :=
  readLines (content.length + 1) (IStream.ofStr content)

/-! ## The report -/

/-- The sentinel the renderer compares the characteristic with. -/
def sentinel : Str := "No special characteristic".toList

/-- The text written for one animal, without the closing `std::endl`. -/
def animalLine (a : Animal) : Str :=
  getName a ++ ", ".toList ++ intToString (getAge a) ++ " years old".toList ++
    (if getSpecialCharacteristic a ≠ sentinel then " - ".toList ++ getSpecialCharacteristic a
     else [])

/-- The animal lines of the section of `species`: the inner loop over
`animals` with its test `animal->getSpecies() == species`. -/
def sectionLines (animals : List Animal) (species : Str) : List Str :=
  (animals.filter (fun a => getSpecies a = species)).map animalLine

/-- The sections of the report in the order the loop over `speciesCount`
writes them: species, animal lines, count. -/
def reportSections (st : ZooState) : List (Str × List Str × Int) :=
  st.speciesCount.map (fun p => (p.1, sectionLines st.animals p.1, p.2))

/-- The text written by one iteration of the loop over `speciesCount`: the
heading, the rule, the animal lines and the species total followed by a
blank line. -/
def renderSection (sec : Str × List Str × Int) : Str :=
  sec.1 ++ "s:\n".toList ++ "------\n".toList ++
    (sec.2.1.map (fun l => l ++ ['\n'])).flatten ++
    "Total ".toList ++ sec.1 ++ "s: ".toList ++ intToString sec.2.2 ++ "\n\n".toList

/-- The two header lines and the blank line after them. -/
def reportHeader : Str := "Zoo Animal Intake Report\n========================\n\n".toList

/-- The last line of the report (`animals.size()` is unsigned). -/
def totalLine (animals : List Animal) : Str :=
  "Total animals: ".toList ++ natToString animals.length ++ ['\n']

/-- Everything written to the output file. -/
def report (st : ZooState) : Str :=
  reportHeader ++ ((reportSections st).map renderSection).flatten ++ totalLine st.animals

/-- The function `main`. `input` is the content of `arrivingAnimals.txt`, or
`none` when it cannot be opened; `outputOpens` tells whether
`newAnimals.txt` can be opened. The result is the exit status and what was
written to the output file, `none` when it was never opened for writing. -/
def main (input : Option Str) (outputOpens : Bool) : Int × Option Str :=
  match input with
  | none => (1, none)
  | some content =>
    let st := readLoop (fileLines content)
    if outputOpens then (0, some (report st)) else (1, none)

/-- What `main` does to the outside, in the order it does it: the two
attempts to open a file with their outcome, the text written to the output
file, and the messages on `std::cerr` and `std::cout`. -/
inductive Event where
  | openInput (ok : Bool)
  | openOutput (ok : Bool)
  | write (text : Str)
  | cerr (msg : Str)
  | cout (msg : Str)
  deriving DecidableEq, Repr

/-- The function `main` with its observable actions: the list of events and
the exit status. `input` is the content of `arrivingAnimals.txt`, or `none`
when it cannot be opened; `outputOpens` tells whether `newAnimals.txt` can be
opened when `main` comes to open it. -/
def mainTrace (input : Option Str) (outputOpens : Bool) : List Event × Int :=
  match input with
  | none =>
    ([Event.openInput false, Event.cerr "Error: Could not open input file.\n".toList], 1)
  | some content =>
    let st := readLoop (fileLines content)
    if outputOpens then
      ([Event.openInput true, Event.openOutput true, Event.write (report st),
        Event.cout
          "Animal processing complete. Report generated in newAnimals.txt\n".toList], 0)
    else
      ([Event.openInput true, Event.openOutput false,
        Event.cerr "Error: Could not open output file.\n".toList], 1)

/-! ## Notions used to state the properties -/

/-- The value the map holds for the key `k`, `0` when the key is absent. -/
def mapCount (m : List (Str × Int)) (k : Str) : Int :=
  match m.lookup k with
  | some v => v
  | none => 0

/-- The keys of the map are in strictly ascending order, as in every
`std::map`. -/
def KeysAscending (m : List (Str × Int)) : Prop :=
  (m.map Prod.fst).Pairwise (fun a b => a < b)

instance (m : List (Str × Int)) : Decidable (KeysAscending m) := by
  unfold KeysAscending; infer_instance

/-- The records of the lines that parse, in input order. -/
def parsedRecords (lines : List Str) : List IntakeRecord := lines.filterMap parseLine

/-- The animals created from the lines that parse, in input order. -/
def parsedAnimals (lines : List Str) : List Animal :=
  (parsedRecords lines).map (fun r => createAnimal r.species r.name r.age)

/-- Number of commas of a line. -/
def commaCount (line : Str) : Nat := line.count ','

/-- The age field of a line: the text between the first comma and the
second comma, or the end of the line when there is no second comma. -/
def ageField (line : Str) : Str :=
  ((line.dropWhile (fun c => c != ',')).drop 1).takeWhile (fun c => c != ',')

/-- The text is an integer: an optional sign followed by decimal digits, at
least one, and nothing else. -/
def isIntegerText (t : Str) : Bool :=
  match t with
  | [] => false
  | c :: cs =>
    let body := if c = '-' ∨ c = '+' then cs else c :: cs
    !body.isEmpty && body.all isdigit

/-- The text begins with an integer as `operator>>` reads one: optional
whitespace, an optional sign, then a decimal digit. -/
def startsWithInt (t : Str) : Bool :=
  match t.dropWhile isspace with
  | [] => false
  | c :: cs =>
    match (if c = '-' ∨ c = '+' then cs else c :: cs) with
    | [] => false
    | d :: _ => isdigit d

/-- The number of animals of the list whose species field is `k`. -/
def speciesTally (animals : List Animal) (k : Str) : Nat :=
  (animals.filter (fun a => getSpecies a = k)).length

/-- The property the Lion setters maintain: a lion that is not male has the
mane length 0. It says nothing of a record of another dynamic type. -/
def LionInvariant (a : Animal) : Prop :=
  match a.variant with
  | Variant.lion isMale maneLength => isMale = false → maneLength = 0
  | _ => True

instance (a : Animal) : Decidable (LionInvariant a) := by
  unfold LionInvariant; split <;> infer_instance

/-- One call of a setter of class `Lion`. -/
inductive LionCall where
  | setIsMale (male : Bool)
  | setManeLength (length : Rat)
  deriving DecidableEq, Repr

/-- The record after one setter call. -/
def applyCall (a : Animal) : LionCall → Animal
  | LionCall.setIsMale male => setIsMale a male
  | LionCall.setManeLength length => setManeLength a length

/-- The record after a sequence of setter calls, first call first. -/
def applyCalls (a : Animal) (calls : List LionCall) : Animal := calls.foldl applyCall a

/-! ## Decimal text and its value -/

theorem digitChar_isdigit (k : Nat) (hk : k < 10) : isdigit (Nat.digitChar k) = true := by
  interval_cases k <;> decide

theorem digitChar_toNat (k : Nat) (hk : k < 10) : (Nat.digitChar k).toNat - 48 = k := by
  interval_cases k <;> decide

/-- With enough fuel the digit loop prepends a non-empty run of digits whose
value is the number printed. -/
theorem toDigitsCore_spec (fuel : Nat) : ∀ (n : Nat) (acc : Str), n < fuel →
    ∃ ds : Str, Nat.toDigitsCore 10 fuel n acc = ds ++ acc ∧ ds ≠ [] ∧
      (∀ c ∈ ds, isdigit c = true) ∧
      ∀ v0 : Nat, ds.foldl (fun v c => 10 * v + (c.toNat - 48)) v0 = v0 * 10 ^ ds.length + n := by
  induction fuel with
  | zero => intro n acc h; omega
  | succ fuel ih =>
    intro n acc h
    have hmod : n % 10 < 10 := Nat.mod_lt _ (by decide)
    by_cases h0 : n / 10 = 0
    · refine ⟨[Nat.digitChar (n % 10)], ?_, by simp, ?_, ?_⟩
      · simp [Nat.toDigitsCore, h0]
      · intro c hc
        rw [List.mem_singleton] at hc
        rw [hc]; exact digitChar_isdigit _ hmod
      · intro v0
        simp only [List.foldl_cons, List.foldl_nil, List.length_singleton, pow_one]
        rw [digitChar_toNat _ hmod]
        omega
    · have hlt : n / 10 < fuel := by omega
      obtain ⟨ds, hds, _, hdig, hval⟩ := ih (n / 10) (Nat.digitChar (n % 10) :: acc) hlt
      refine ⟨ds ++ [Nat.digitChar (n % 10)], ?_, by simp, ?_, ?_⟩
      · simp [Nat.toDigitsCore, h0, hds]
      · intro c hc
        rcases List.mem_append.1 hc with hc | hc
        · exact hdig c hc
        · rw [List.mem_singleton] at hc
          rw [hc]; exact digitChar_isdigit _ hmod
      · intro v0
        rw [List.foldl_append, hval v0]
        simp only [List.foldl_cons, List.foldl_nil, List.length_append, List.length_singleton]
        rw [digitChar_toNat _ hmod, pow_succ]
        have := Nat.div_add_mod n 10
        nlinarith [this]

theorem natToString_spec (n : Nat) :
    natToString n ≠ [] ∧ (∀ c ∈ natToString n, isdigit c = true) ∧
      digitsVal (natToString n) = n := by
  obtain ⟨ds, hds, hne, hdig, hval⟩ := toDigitsCore_spec (n + 1) n [] (Nat.lt_succ_self n)
  have h : natToString n = ds := by
    simp [natToString, Nat.toDigits, hds]
  rw [h]
  refine ⟨hne, hdig, ?_⟩
  have := hval 0
  simpa [digitsVal] using this

/-! ## The stream operations -/

theorem span_ne_append (d : Char) (N rest : Str) (h : d ∉ N) :
    (N ++ d :: rest).span (fun c => c != d) = (N, d :: rest) := by
  rw [List.span_eq_take_drop]
  have hall : ∀ a ∈ N, (fun c => c != d) a = true := by
    intro a ha
    have : a ≠ d := fun e => h (e ▸ ha)
    simpa using this
  rw [List.takeWhile_append_of_pos hall, List.dropWhile_append_of_pos hall]
  simp

theorem span_ne_all (d : Char) (S : Str) (h : d ∉ S) :
    S.span (fun c => c != d) = (S, []) := by
  rw [List.span_eq_take_drop]
  have hall : ∀ a ∈ S, (fun c => c != d) a = true := by
    intro a ha
    have : a ≠ d := fun e => h (e ▸ ha)
    simpa using this
  rw [List.takeWhile_eq_self_iff.2 hall, List.dropWhile_eq_nil_iff.2 hall]

theorem getline_delim (d : Char) (N rest : Str) (h : d ∉ N) :
    getline { buf := N ++ d :: rest, eof := false } d
      = some (N, { buf := rest, eof := false }) := by
  simp only [getline, span_ne_append d N rest h]
  rfl

theorem getline_eof (d : Char) (S : Str) (h : d ∉ S) (hne : S ≠ []) :
    getline { buf := S, eof := false } d = some (S, { buf := [], eof := true }) := by
  simp only [getline, span_ne_all d S h]
  simp [hne]

theorem readInt_eof (b : Str) : readInt { buf := b, eof := true } = none := by
  simp [readInt]

theorem isdigit_not_space {c : Char} (h : isdigit c = true) : isspace c = false := by
  simp only [isdigit, isspace, Bool.and_eq_true, decide_eq_true_eq, Bool.or_eq_false_iff,
    Bool.and_eq_false_iff, decide_eq_false_iff_not] at h ⊢
  constructor
  · intro hc; subst hc; revert h; decide
  · omega

theorem isdigit_not_sign {c : Char} (h : isdigit c = true) : ¬ (c = '-' ∨ c = '+') := by
  rintro (hc | hc) <;> subst hc <;> revert h <;> decide

theorem readInt_digits (ds : Str) (c : Char) (rest : Str) (hne : ds ≠ [])
    (hdig : ∀ x ∈ ds, isdigit x = true) (hc : isdigit c = false)
    (hr : (digitsVal ds : Int) ≤ INT_MAX) :
    readInt { buf := ds ++ c :: rest, eof := false }
      = some ((digitsVal ds : Int), { buf := c :: rest, eof := false }) := by
  obtain ⟨d, ds', rfl⟩ := List.exists_cons_of_ne_nil hne
  have hd : isdigit d = true := hdig d (List.mem_cons_self _ _)
  have hsp : isspace d = false := isdigit_not_space hd
  have hsg := isdigit_not_sign hd
  have hdm : d ≠ '-' := fun e => hsg (Or.inl e)
  have hdp : d ≠ '+' := fun e => hsg (Or.inr e)
  have htw : List.takeWhile isdigit (d :: ds' ++ c :: rest) = d :: ds' := by
    rw [List.takeWhile_append_of_pos hdig]; simp [hc]
  have hdw : List.dropWhile isdigit (d :: ds' ++ c :: rest) = c :: rest := by
    rw [List.dropWhile_append_of_pos hdig]; simp [hc]
  have hlo : ¬ ((digitsVal (d :: ds') : Int) < INT_MIN) := by
    have : (0 : Int) ≤ (digitsVal (d :: ds') : Int) := Int.ofNat_nonneg _
    simp only [INT_MIN]; omega
  have hhi : ¬ (INT_MAX < (digitsVal (d :: ds') : Int)) := by omega
  simp only [readInt, List.cons_append] at *
  simp [hsp, hdm, hdp, htw, hdw, hlo, hhi]

theorem readInt_neg_digits (ds : Str) (c : Char) (rest : Str) (hne : ds ≠ [])
    (hdig : ∀ x ∈ ds, isdigit x = true) (hc : isdigit c = false)
    (hr : INT_MIN ≤ -(digitsVal ds : Int)) :
    readInt { buf := '-' :: ds ++ c :: rest, eof := false }
      = some (-(digitsVal ds : Int), { buf := c :: rest, eof := false }) := by
  have hsp : isspace '-' = false := by decide
  have htw : List.takeWhile isdigit (ds ++ c :: rest) = ds := by
    rw [List.takeWhile_append_of_pos hdig]; simp [hc]
  have hdw : List.dropWhile isdigit (ds ++ c :: rest) = c :: rest := by
    rw [List.dropWhile_append_of_pos hdig]; simp [hc]
  have hlo : ¬ (-(digitsVal ds : Int) < INT_MIN) := by omega
  have hhi : ¬ (INT_MAX < -(digitsVal ds : Int)) := by
    have : (0 : Int) ≤ (digitsVal ds : Int) := Int.ofNat_nonneg _
    simp only [INT_MAX]; omega
  simp only [readInt, List.cons_append] at *
  simp [hsp, htw, hdw, hlo, hhi, hne]

/-- Reading back the decimal text of an `int` gives the `int` and stops at
the first character that is not a digit. -/
theorem readInt_intToString (i : Int) (c : Char) (rest : Str)
    (hlo : INT_MIN ≤ i) (hhi : i ≤ INT_MAX) (hc : isdigit c = false) :
    readInt { buf := intToString i ++ c :: rest, eof := false }
      = some (i, { buf := c :: rest, eof := false }) := by
  cases i with
  | ofNat n =>
    obtain ⟨hne, hdig, hval⟩ := natToString_spec n
    have h := readInt_digits (natToString n) c rest hne hdig hc (by rw [hval]; exact hhi)
    rw [hval] at h
    exact h
  | negSucc n =>
    obtain ⟨hne, hdig, hval⟩ := natToString_spec (n + 1)
    have e : Int.negSucc n = -((n + 1 : Nat) : Int) := rfl
    have h := readInt_neg_digits (natToString (n + 1)) c rest hne hdig hc
      (by rw [hval, ← e]; exact hlo)
    rw [hval, ← e] at h
    exact h

/-- A name without comma, the decimal text of an `int`, one character that
is not a digit and a non-empty rest without line feed parse into the three
fields. -/
theorem parseLine_sep (N S : Str) (i : Int) (c : Char) (hN : ',' ∉ N)
    (hlo : INT_MIN ≤ i) (hhi : i ≤ INT_MAX) (hc : isdigit c = false)
    (hS : S ≠ []) (hnl : '\n' ∉ S) :
    parseLine (N ++ ',' :: (intToString i ++ c :: S))
      = some { name := N, age := i, species := S } := by
  simp only [parseLine, IStream.ofStr]
  rw [getline_delim ',' N _ hN]
  simp only []
  rw [readInt_intToString i c S hlo hhi hc]
  have hig : ignore { buf := c :: S, eof := false } = some { buf := S, eof := false } := rfl
  simp only [hig]
  rw [getline_eof '\n' S hnl hS]

/-- The line delivered by `getline` does not contain the delimiter. -/
theorem getline_no_delim (s s' : IStream) (d : Char) (str : Str)
    (h : getline s d = some (str, s')) : d ∉ str := by
  have hstr : str = s.buf.takeWhile (fun c => c != d) := by
    unfold getline at h
    rw [List.span_eq_take_drop] at h
    split at h
    · exact absurd h (by simp)
    · split at h
      · rename_i heq
        simp only [Prod.mk.injEq] at heq
        simp only [Option.some.injEq, Prod.mk.injEq] at h
        rw [← h.1, ← heq.1]
      · rename_i heq
        simp only [Prod.mk.injEq] at heq
        split at h
        · exact absurd h (by simp)
        · simp only [Option.some.injEq, Prod.mk.injEq] at h
          rw [← h.1, ← heq.1]
  intro hm
  rw [hstr] at hm
  have := List.mem_takeWhile_imp hm
  simp at this

/-- No line of the input file contains a line feed. -/
theorem readLines_no_newline (fuel : Nat) : ∀ (s : IStream) (l : Str),
    l ∈ readLines fuel s → '\n' ∉ l := by
  induction fuel with
  | zero => intro s l h; simp [readLines] at h
  | succ fuel ih =>
    intro s l h
    simp only [readLines] at h
    split at h
    · simp at h
    · rename_i line s' heq
      rcases List.mem_cons.1 h with rfl | h
      · exact getline_no_delim s s' '\n' _ heq
      · exact ih s' l h

theorem fileLines_no_newline (content l : Str) (h : l ∈ fileLines content) : '\n' ∉ l :=
  readLines_no_newline _ _ l h

/-- After a successful `getline` the stream is at its end or its buffer is
shorter. -/
theorem getline_progress (s s' : IStream) (d : Char) (str : Str)
    (h : getline s d = some (str, s')) : s'.eof = true ∨ s'.buf.length < s.buf.length := by
  unfold getline at h
  rw [List.span_eq_take_drop] at h
  split at h
  · exact absurd h (by simp)
  · split at h
    · rename_i heq
      simp only [Prod.mk.injEq] at heq
      simp only [Option.some.injEq, Prod.mk.injEq] at h
      right
      have hlen := congrArg List.length (List.takeWhile_append_dropWhile (fun c => c != d) s.buf)
      rw [List.length_append, heq.2, List.length_cons] at hlen
      rw [← h.2]
      simp only []
      omega
    · split at h
      · exact absurd h (by simp)
      · simp only [Option.some.injEq, Prod.mk.injEq] at h
        left
        rw [← h.2]

theorem readLines_eof (fuel : Nat) (b : Str) : readLines fuel { buf := b, eof := true } = [] := by
  cases fuel with
  | zero => rfl
  | succ n => simp [readLines, getline]

/-- The read loop over the file never runs out of iterations: any number of
them above the length of the buffer delivers the same lines. -/
theorem readLines_fuel (k : Nat) : ∀ (fuel : Nat) (s : IStream),
    s.buf.length < fuel → readLines (fuel + k) s = readLines fuel s := by
  intro fuel
  induction fuel with
  | zero => intro s h; omega
  | succ fuel ih =>
    intro s h
    have e : fuel + 1 + k = (fuel + k) + 1 := by omega
    rw [e]
    simp only [readLines]
    cases hg : getline s '\n' with
    | none => rfl
    | some p =>
      obtain ⟨line, s'⟩ := p
      simp only []
      rcases getline_progress s s' '\n' line hg with he | hl
      · obtain ⟨b, eo⟩ := s'
        simp only at he
        subst he
        rw [readLines_eof, readLines_eof]
      · rw [ih s' (by omega)]

/-! ## The map of species counts -/

theorem mapIncr_keys (k : Str) (m : List (Str × Int)) (x : Str) :
    x ∈ (mapIncr k m).map Prod.fst ↔ x = k ∨ x ∈ m.map Prod.fst := by
  induction m with
  | nil => simp [mapIncr]
  | cons p m ih =>
    obtain ⟨a, v⟩ := p
    simp only [mapIncr]
    split_ifs with h1 h2
    · simp
    · subst h2; simp
    · simp only [List.map_cons, List.mem_cons, ih]
      tauto

theorem mapIncr_ascending (k : Str) (m : List (Str × Int)) (h : KeysAscending m) :
    KeysAscending (mapIncr k m) := by
  unfold KeysAscending at *
  induction m with
  | nil => simp [mapIncr]
  | cons p m ih =>
    obtain ⟨a, v⟩ := p
    simp only [List.map_cons, List.pairwise_cons] at h
    simp only [mapIncr]
    split_ifs with h1 h2
    · simp only [List.map_cons, List.pairwise_cons, List.mem_cons]
      refine ⟨?_, h.1, h.2⟩
      rintro y (rfl | hy)
      · exact h1
      · exact lt_trans h1 (h.1 y hy)
    · simp only [List.map_cons, List.pairwise_cons]
      exact h
    · simp only [List.map_cons, List.pairwise_cons]
      refine ⟨?_, ih h.2⟩
      intro y hy
      rcases (mapIncr_keys k m y).1 hy with rfl | hy
      · exact lt_of_le_of_ne (not_lt.1 h1) (fun e => h2 e.symm)
      · exact h.1 y hy

theorem mapIncr_sum (k : Str) (m : List (Str × Int)) :
    ((mapIncr k m).map Prod.snd).sum = (m.map Prod.snd).sum + 1 := by
  induction m with
  | nil => simp [mapIncr]
  | cons p m ih =>
    obtain ⟨a, v⟩ := p
    simp only [mapIncr]
    split_ifs with h1 h2
    · simp only [List.map_cons, List.sum_cons]; omega
    · simp only [List.map_cons, List.sum_cons]; omega
    · simp only [List.map_cons, List.sum_cons, ih]; omega

theorem mapCount_absent (m : List (Str × Int)) (k : Str) (h : k ∉ m.map Prod.fst) :
    mapCount m k = 0 := by
  induction m with
  | nil => rfl
  | cons p m ih =>
    obtain ⟨a, v⟩ := p
    simp only [List.map_cons, List.mem_cons, not_or] at h
    have hne : (k == a) = false := by simpa using h.1
    have := ih h.2
    simp only [mapCount, List.lookup, hne] at this ⊢
    exact this

theorem mapCount_mapIncr_self (k : Str) (m : List (Str × Int)) (h : KeysAscending m) :
    mapCount (mapIncr k m) k = mapCount m k + 1 := by
  unfold KeysAscending at h
  induction m with
  | nil => simp [mapIncr, mapCount, List.lookup]
  | cons p m ih =>
    obtain ⟨a, v⟩ := p
    simp only [List.map_cons, List.pairwise_cons] at h
    simp only [mapIncr]
    split_ifs with h1 h2
    · have hk : k ∉ ((a, v) :: m).map Prod.fst := by
        simp only [List.map_cons, List.mem_cons, not_or]
        refine ⟨ne_of_lt h1, fun hm => ?_⟩
        exact lt_asymm h1 (h.1 k hm)
      rw [mapCount_absent _ k hk]
      simp [mapCount, List.lookup]
    · subst h2
      simp [mapCount, List.lookup]
    · have hne : (k == a) = false := by simpa using h2
      have := ih h.2
      simp only [mapCount, List.lookup, hne] at this ⊢
      exact this

theorem mapCount_mapIncr_other (k k' : Str) (m : List (Str × Int)) (hk : k' ≠ k) :
    mapCount (mapIncr k m) k' = mapCount m k' := by
  induction m with
  | nil =>
    have hne : (k' == k) = false := by simpa using hk
    simp [mapIncr, mapCount, List.lookup, hne]
  | cons p m ih =>
    obtain ⟨a, v⟩ := p
    have hne : (k' == k) = false := by simpa using hk
    simp only [mapIncr]
    split_ifs with h1 h2
    · simp [mapCount, List.lookup, hne]
    · subst h2
      simp [mapCount, List.lookup, hne]
    · by_cases e : k' = a
      · subst e; simp [mapCount, List.lookup]
      · have hne2 : (k' == a) = false := by simpa using e
        simp only [mapCount, List.lookup, hne2] at ih ⊢
        exact ih

/-- What one iteration of the read loop does on a line that parses. -/
theorem processLine_of_parse (st : ZooState) (line : Str) (r : IntakeRecord)
    (h : parseLine line = some r) :
    processLine st line =
      { animals := st.animals ++ [createAnimal r.species r.name r.age],
        speciesCount := mapIncr r.species st.speciesCount } := by
  simp [processLine, h]

/-- A line that does not parse leaves both containers as they are. -/
theorem processLine_of_fail (st : ZooState) (line : Str) (h : parseLine line = none) :
    processLine st line = st := by
  simp [processLine, h]

/-! ## The claims -/

/-- C1: for every line `N,A,S` where `N` has no comma, `A` is the decimal
text of an integer `i` in the range of a 32-bit `int` and `S` is non-empty
(a line holds no line feed), the parse succeeds with name `N`, age `i` and
species `S`; the iteration appends exactly one animal, created from these
three values, and raises the count of `S` by one, leaving every other count
as it was. -/
theorem C1_wellformed_line_parsed (N S : Str) (i : Int) (st : ZooState)
    (hN : ',' ∉ N) (hlo : INT_MIN ≤ i) (hhi : i ≤ INT_MAX) (hS : S ≠ []) (hnl : '\n' ∉ S)
    (hst : KeysAscending st.speciesCount) :
    parseLine (N ++ ',' :: (intToString i ++ ',' :: S))
        = some { name := N, age := i, species := S } ∧
      (processLine st (N ++ ',' :: (intToString i ++ ',' :: S))).animals
        = st.animals ++ [createAnimal S N i] ∧
      mapCount (processLine st (N ++ ',' :: (intToString i ++ ',' :: S))).speciesCount S
        = mapCount st.speciesCount S + 1 ∧
      ∀ k : Str, k ≠ S →
        mapCount (processLine st (N ++ ',' :: (intToString i ++ ',' :: S))).speciesCount k
          = mapCount st.speciesCount k := by
  have hp := parseLine_sep N S i ',' hN hlo hhi (by decide) hS hnl
  have hs := processLine_of_parse st _ _ hp
  refine ⟨hp, ?_, ?_, ?_⟩
  · rw [hs]
  · rw [hs]; exact mapCount_mapIncr_self S st.speciesCount hst
  · intro k hk
    rw [hs]; exact mapCount_mapIncr_other S k st.speciesCount hk

/-- C1, instance: the line `Leo,5,Lion` read into the empty containers. -/
theorem C1_wellformed_line_parsed_witness :
    parseLine ("Leo".toList ++ ',' :: (intToString 5 ++ ',' :: "Lion".toList))
        = some { name := "Leo".toList, age := 5, species := "Lion".toList } ∧
      (processLine ZooState.init
          ("Leo".toList ++ ',' :: (intToString 5 ++ ',' :: "Lion".toList))).animals
        = ZooState.init.animals ++ [createAnimal "Lion".toList "Leo".toList 5] ∧
      mapCount (processLine ZooState.init
          ("Leo".toList ++ ',' :: (intToString 5 ++ ',' :: "Lion".toList))).speciesCount
          "Lion".toList
        = mapCount ZooState.init.speciesCount "Lion".toList + 1 ∧
      ∀ k : Str, k ≠ "Lion".toList →
        mapCount (processLine ZooState.init
          ("Leo".toList ++ ',' :: (intToString 5 ++ ',' :: "Lion".toList))).speciesCount k
          = mapCount ZooState.init.speciesCount k :=
  C1_wellformed_line_parsed "Leo".toList "Lion".toList 5 ZooState.init
    (by decide) (by decide) (by decide) (by decide) (by decide) (by decide)


theorem split_first (d : Char) (l : Str) (h : d ∈ l) :
    ∃ N rest, l = N ++ d :: rest ∧ d ∉ N := by
  induction l with
  | nil => simp at h
  | cons c l ih =>
    by_cases e : c = d
    · exact ⟨[], l, by simp [e], by simp⟩
    · have hl : d ∈ l := by
        rcases List.mem_cons.1 h with h | h
        · exact absurd h.symm e
        · exact h
      obtain ⟨N, rest, hN, hd⟩ := ih hl
      refine ⟨c :: N, rest, by simp [hN], ?_⟩
      simp only [List.mem_cons, not_or]
      exact ⟨fun e' => e e'.symm, hd⟩

theorem ageField_append (N rest : Str) (hN : ',' ∉ N) :
    ageField (N ++ ',' :: rest) = rest.takeWhile (fun c => c != ',') := by
  have hall : ∀ a ∈ N, (fun c => c != ',') a = true := by
    intro a ha
    have : a ≠ ',' := fun e => hN (e ▸ ha)
    simpa using this
  simp only [ageField]
  rw [List.dropWhile_append_of_pos hall]
  simp

theorem startsWithInt_cons_space (c : Char) (t : Str) (h : isspace c = true) :
    startsWithInt (c :: t) = startsWithInt t := by
  simp [startsWithInt, List.dropWhile_cons, h]

theorem startsWithInt_cons_nonspace (c : Char) (t : Str) (h : isspace c = false) :
    startsWithInt (c :: t) =
      match (if c = '-' ∨ c = '+' then t else c :: t) with
      | [] => false
      | d :: _ => isdigit d := by
  unfold startsWithInt
  rw [List.dropWhile_cons]
  simp only [h]
  rfl

theorem startsWithInt_takeWhile (t : Str) :
    startsWithInt (t.takeWhile (fun c => c != ',')) = startsWithInt t := by
  induction t with
  | nil => rfl
  | cons c t ih =>
    by_cases hc : c = ','
    · subst hc
      have : startsWithInt (',' :: t) = false := by
        rw [startsWithInt_cons_nonspace _ _ (by decide)]
        simp
        decide
      simp [this]
      rfl
    · have hp : (c != ',') = true := by simpa using hc
      rw [List.takeWhile_cons]
      simp only [hp, if_true]
      by_cases hs : isspace c = true
      · rw [startsWithInt_cons_space _ _ hs, startsWithInt_cons_space _ _ hs, ih]
      · have hs' : isspace c = false := by simpa using hs
        rw [startsWithInt_cons_nonspace _ _ hs', startsWithInt_cons_nonspace _ _ hs']
        by_cases hsg : c = '-' ∨ c = '+'
        · simp only [hsg, if_true]
          cases t with
          | nil => rfl
          | cons d t' =>
            by_cases hd : d = ','
            · subst hd
              simp
              decide
            · have hp' : (d != ',') = true := by simpa using hd
              rw [List.takeWhile_cons]
              simp only [hp', if_true]
        · simp only [hsg, if_false]

theorem readInt_none_of_not_startsWithInt (t : Str) (h : startsWithInt t = false) :
    readInt { buf := t, eof := false } = none := by
  unfold startsWithInt at h
  unfold readInt
  simp only [Bool.false_eq_true, if_false]
  generalize List.dropWhile isspace t = b at h
  cases b with
  | nil => rfl
  | cons c cs =>
    simp only [] at h ⊢
    generalize (if c = '-' ∨ c = '+' then cs else c :: cs) = body at h
    cases body with
    | nil => simp
    | cons d ds =>
      simp only [] at h
      simp [List.takeWhile_cons, h]

theorem parseLine_none_of_readInt_none (N rest : Str) (hN : ',' ∉ N)
    (h : readInt { buf := rest, eof := false } = none) :
    parseLine (N ++ ',' :: rest) = none := by
  simp only [parseLine, IStream.ofStr]
  rw [getline_delim ',' N _ hN]
  simp only []
  rw [h]

theorem parseLine_none_of_no_comma (line : Str) (h : ',' ∉ line) : parseLine line = none := by
  simp only [parseLine, IStream.ofStr]
  by_cases hl : line = []
  · subst hl
    rfl
  · rw [getline_eof ',' line h hl]
    simp only [readInt_eof]


theorem readInt_integerText (t : Str) (h : isIntegerText t = true) :
    readInt { buf := t, eof := false } = none ∨
      ∃ v : Int, readInt { buf := t, eof := false } = some (v, { buf := [], eof := true }) := by
  cases t with
  | nil => simp [isIntegerText] at h
  | cons c cs =>
    simp only [isIntegerText, Bool.and_eq_true, Bool.not_eq_true', List.all_eq_true] at h
    obtain ⟨hne, hall⟩ := h
    have hsp : isspace c = false := by
      by_cases hs : c = '-' ∨ c = '+'
      · rcases hs with rfl | rfl <;> decide
      · simp only [hs, if_false] at hall
        exact isdigit_not_space (hall c (List.mem_cons_self _ _))
    have htw : List.takeWhile isdigit (if c = '-' ∨ c = '+' then cs else c :: cs)
        = (if c = '-' ∨ c = '+' then cs else c :: cs) := List.takeWhile_eq_self_iff.2 hall
    have hdw : List.dropWhile isdigit (if c = '-' ∨ c = '+' then cs else c :: cs) = [] :=
      List.dropWhile_eq_nil_iff.2 hall
    have hne' : (if c = '-' ∨ c = '+' then cs else c :: cs) ≠ [] := by
      intro e; rw [e] at hne; simp at hne
    unfold readInt
    simp only [Bool.false_eq_true, if_false, List.dropWhile_cons, hsp, htw, hdw, hne',
      List.isEmpty_nil]
    split_ifs <;> first | exact Or.inl rfl | exact Or.inr ⟨_, rfl⟩

theorem parseLine_none_of_integerText (N rest : Str) (hN : ',' ∉ N)
    (h : isIntegerText rest = true) : parseLine (N ++ ',' :: rest) = none := by
  rcases readInt_integerText rest h with hr | ⟨v, hr⟩
  · exact parseLine_none_of_readInt_none N rest hN hr
  · simp only [parseLine, IStream.ofStr]
    rw [getline_delim ',' N _ hN]
    simp only []
    rw [hr]
    rfl

theorem ageField_one_comma (N rest : Str) (hN : ',' ∉ N)
    (hc : commaCount (N ++ ',' :: rest) < 2) : ageField (N ++ ',' :: rest) = rest := by
  rw [ageField_append N rest hN]
  have h0 : List.count ',' rest = 0 := by
    simp only [commaCount, List.count_append, List.count_cons_self] at hc
    omega
  have hall : ∀ a ∈ rest, (fun c => c != ',') a = true := by
    intro a ha
    have : a ≠ ',' := fun e => (List.count_eq_zero.1 h0) (e ▸ ha)
    simpa using this
  exact List.takeWhile_eq_self_iff.2 hall

/-- The decimal text is the one Lean prints for the integer. -/
theorem intToString_eq_repr (i : Int) : intToString i = (Int.repr i).toList := by
  cases i with
  | ofNat n => rfl
  | negSucc n => rfl

theorem createAnimal_generic_of_comma (S N : Str) (i : Int) (hS : ',' ∈ S) :
    createAnimal S N i = mkAnimal N i S := by
  have h1 : S ≠ "Hyena".toList := by intro e; rw [e] at hS; revert hS; decide
  have h2 : S ≠ "Lion".toList := by intro e; rw [e] at hS; revert hS; decide
  have h3 : S ≠ "Tiger".toList := by intro e; rw [e] at hS; revert hS; decide
  have h4 : S ≠ "Bear".toList := by intro e; rw [e] at hS; revert hS; decide
  unfold createAnimal
  rw [if_neg h1, if_neg h2, if_neg h3, if_neg h4]

/-- C2, refuted as stated: the line `Leo,5xLion` has one comma only, and the
age field of `Leo,5x,Lion` is `5x`, which is not an integer; both lines
parse, and each appends an animal and creates a count. -/
theorem C2_malformed_lines_accepted :
    (commaCount "Leo,5xLion".toList = 1 ∧
      parseLine "Leo,5xLion".toList
        = some { name := "Leo".toList, age := 5, species := "Lion".toList } ∧
      processLine ZooState.init "Leo,5xLion".toList
        = { animals := [mkLion "Leo".toList 5], speciesCount := [("Lion".toList, 1)] }) ∧
    (ageField "Leo,5x,Lion".toList = "5x".toList ∧ isIntegerText "5x".toList = false ∧
      parseLine "Leo,5x,Lion".toList
        = some { name := "Leo".toList, age := 5, species := ",Lion".toList } ∧
      processLine ZooState.init "Leo,5x,Lion".toList
        = { animals := [mkAnimal "Leo".toList 5 ",Lion".toList],
            speciesCount := [(",Lion".toList, 1)] }) := by
  decide

/-- C2, amended: a line without any comma, a line without a second comma
whose age field (here the text from the first comma to the end of the line)
is an integer, and a line whose age field (the text between the first comma
and the second comma, or the end of the line) does not begin with an integer
(optional whitespace, an optional sign, then a decimal digit), yields no
record: the iteration leaves the animal list and the species counts as they
were. -/
theorem C2_no_record (line : Str) (st : ZooState)
    (h : ',' ∉ line ∨ (commaCount line < 2 ∧ isIntegerText (ageField line) = true) ∨
      startsWithInt (ageField line) = false) :
    parseLine line = none ∧ processLine st line = st := by
  have hp : parseLine line = none := by
    by_cases hc : ',' ∈ line
    · obtain ⟨N, rest, hl, hN⟩ := split_first ',' line hc
      rcases h with h | ⟨h1, h2⟩ | h
      · exact absurd hc h
      · rw [hl] at h1 h2 ⊢
        rw [ageField_one_comma N rest hN h1] at h2
        exact parseLine_none_of_integerText N rest hN h2
      · rw [hl, ageField_append N rest hN, startsWithInt_takeWhile] at h
        rw [hl]
        exact parseLine_none_of_readInt_none N rest hN
          (readInt_none_of_not_startsWithInt rest h)
    · exact parseLine_none_of_no_comma line hc
  exact ⟨hp, processLine_of_fail st line hp⟩

/-- C2, amended, instances: the lines `OnlyOneField`, `Leo,5` and
`Name,NotANumber,Species`, one for each kind of line. -/
theorem C2_no_record_witness :
    (',' ∉ "OnlyOneField".toList ∧
      parseLine "OnlyOneField".toList = none ∧
      processLine ZooState.init "OnlyOneField".toList = ZooState.init) ∧
    ((commaCount "Leo,5".toList < 2 ∧ isIntegerText (ageField "Leo,5".toList) = true) ∧
      parseLine "Leo,5".toList = none ∧
      processLine ZooState.init "Leo,5".toList = ZooState.init) ∧
    (startsWithInt (ageField "Name,NotANumber,Species".toList) = false ∧
      parseLine "Name,NotANumber,Species".toList = none ∧
      processLine ZooState.init "Name,NotANumber,Species".toList = ZooState.init) :=
  ⟨⟨by decide, C2_no_record "OnlyOneField".toList ZooState.init (Or.inl (by decide))⟩,
   ⟨by decide, C2_no_record "Leo,5".toList ZooState.init (Or.inr (Or.inl (by decide)))⟩,
   ⟨by decide, C2_no_record "Name,NotANumber,Species".toList ZooState.init
      (Or.inr (Or.inr (by decide)))⟩⟩

/-- C3, refuted as stated: the line `Leo,5,Lion,extra` has three commas and
is not skipped; it appends a record of species `Lion,extra` and creates the
count of that species. -/
theorem C3_extra_comma_accepted :
    commaCount "Leo,5,Lion,extra".toList = 3 ∧
      parseLine "Leo,5,Lion,extra".toList
        = some { name := "Leo".toList, age := 5, species := "Lion,extra".toList } ∧
      processLine ZooState.init "Leo,5,Lion,extra".toList
        = { animals := [mkAnimal "Leo".toList 5 "Lion,extra".toList],
            speciesCount := [("Lion,extra".toList, 1)] } := by
  decide

/-- C3, amended: a line `N,A,S` whose remainder `S` after the second comma
holds further commas (`N` without comma, `A` the decimal text of a 32-bit
`int`) has more than two commas and is not skipped: the whole remainder,
commas included, is the species, one record of the base class with name `N`,
age `A` and species `S` is appended, and the count of `S` rises by one. -/
theorem C3_extra_comma_kept (N S : Str) (i : Int) (st : ZooState)
    (hN : ',' ∉ N) (hlo : INT_MIN ≤ i) (hhi : i ≤ INT_MAX) (hS : ',' ∈ S) (hnl : '\n' ∉ S)
    (hst : KeysAscending st.speciesCount) :
    2 < commaCount (N ++ ',' :: (intToString i ++ ',' :: S)) ∧
      parseLine (N ++ ',' :: (intToString i ++ ',' :: S))
        = some { name := N, age := i, species := S } ∧
      processLine st (N ++ ',' :: (intToString i ++ ',' :: S))
        = { animals := st.animals ++ [mkAnimal N i S],
            speciesCount := mapIncr S st.speciesCount } ∧
      mapCount (mapIncr S st.speciesCount) S = mapCount st.speciesCount S + 1 := by
  have hne : S ≠ [] := List.ne_nil_of_mem hS
  have hp := parseLine_sep N S i ',' hN hlo hhi (by decide) hne hnl
  refine ⟨?_, hp, ?_, mapCount_mapIncr_self S st.speciesCount hst⟩
  · have hc : 0 < List.count ',' S := List.count_pos_iff.2 hS
    simp only [commaCount, List.count_append, List.count_cons_self]
    omega
  · rw [processLine_of_parse st _ _ hp]
    simp only [createAnimal_generic_of_comma S N i hS]

/-- C3, amended, instance: the line `Leo,5,Lion,extra`. -/
theorem C3_extra_comma_kept_witness :
    2 < commaCount ("Leo".toList ++ ',' :: (intToString 5 ++ ',' :: "Lion,extra".toList)) ∧
      parseLine ("Leo".toList ++ ',' :: (intToString 5 ++ ',' :: "Lion,extra".toList))
        = some { name := "Leo".toList, age := 5, species := "Lion,extra".toList } ∧
      processLine ZooState.init
          ("Leo".toList ++ ',' :: (intToString 5 ++ ',' :: "Lion,extra".toList))
        = { animals := ZooState.init.animals ++ [mkAnimal "Leo".toList 5 "Lion,extra".toList],
            speciesCount := mapIncr "Lion,extra".toList ZooState.init.speciesCount } ∧
      mapCount (mapIncr "Lion,extra".toList ZooState.init.speciesCount) "Lion,extra".toList
        = mapCount ZooState.init.speciesCount "Lion,extra".toList + 1 :=
  C3_extra_comma_kept "Leo".toList "Lion,extra".toList 5 ZooState.init
    (by decide) (by decide) (by decide) (by decide) (by decide) (by decide)

/-- C4: `createAnimal` is a total function; on the exact strings `Hyena`,
`Lion`, `Tiger`, `Bear` it returns that variant with the default fields
(laughing hyena; female lion with mane length 0; tiger with 100 stripes;
grizzly bear, not hibernating); on every other string, such as `lion` or
`Zebra`, it returns a record of the base class whose species is that string;
the name and the age of the record are always the ones given. -/
theorem C4_createAnimal (s n : Str) (a : Int) :
    (s = "Hyena".toList → createAnimal s n a
        = { name := n, age := a, species := "Hyena".toList, variant := Variant.hyena true }) ∧
    (s = "Lion".toList → createAnimal s n a
        = { name := n, age := a, species := "Lion".toList, variant := Variant.lion false 0 }) ∧
    (s = "Tiger".toList → createAnimal s n a
        = { name := n, age := a, species := "Tiger".toList, variant := Variant.tiger 100 }) ∧
    (s = "Bear".toList → createAnimal s n a
        = { name := n, age := a, species := "Bear".toList,
            variant := Variant.bear "Grizzly".toList false }) ∧
    (s ≠ "Hyena".toList → s ≠ "Lion".toList → s ≠ "Tiger".toList → s ≠ "Bear".toList →
      createAnimal s n a = { name := n, age := a, species := s, variant := Variant.generic }) ∧
    createAnimal "lion".toList n a
      = { name := n, age := a, species := "lion".toList, variant := Variant.generic } ∧
    createAnimal "Zebra".toList n a
      = { name := n, age := a, species := "Zebra".toList, variant := Variant.generic } ∧
    getName (createAnimal s n a) = n ∧ getAge (createAnimal s n a) = a := by
  refine ⟨?_, ?_, ?_, ?_, ?_, ?_, ?_, ?_, ?_⟩
  · intro h; subst h; rfl
  · intro h; subst h; rfl
  · intro h; subst h; rfl
  · intro h; subst h; rfl
  · intro h1 h2 h3 h4
    unfold createAnimal
    rw [if_neg h1, if_neg h2, if_neg h3, if_neg h4]
    rfl
  · rfl
  · rfl
  · unfold createAnimal; split_ifs <;> rfl
  · unfold createAnimal; split_ifs <;> rfl

/-- C5: whatever the common fields are, `getSpecialCharacteristic` returns
`Laughing hyena` or `Not currently laughing` for a hyena according to
`isLaughing`; `Female lion (huntress)` for a lion that is not male;
`Has approximately <stripeCount> stripes` for a tiger; `<bearType> bear` for
a bear, with ` (hibernating)` appended exactly when it hibernates; and
`No special characteristic` for a record of the base class. -/
theorem C5_getSpecialCharacteristic (n sp : Str) (a : Int) :
    getSpecialCharacteristic { name := n, age := a, species := sp, variant := Variant.hyena true }
      = "Laughing hyena".toList ∧
    getSpecialCharacteristic { name := n, age := a, species := sp, variant := Variant.hyena false }
      = "Not currently laughing".toList ∧
    (∀ m : Rat, getSpecialCharacteristic
        { name := n, age := a, species := sp, variant := Variant.lion false m }
      = "Female lion (huntress)".toList) ∧
    (∀ k : Int, getSpecialCharacteristic
        { name := n, age := a, species := sp, variant := Variant.tiger k }
      = "Has approximately ".toList ++ intToString k ++ " stripes".toList) ∧
    (∀ t : Str, getSpecialCharacteristic
        { name := n, age := a, species := sp, variant := Variant.bear t true }
      = t ++ " bear".toList ++ " (hibernating)".toList) ∧
    (∀ t : Str, getSpecialCharacteristic
        { name := n, age := a, species := sp, variant := Variant.bear t false }
      = t ++ " bear".toList) ∧
    getSpecialCharacteristic { name := n, age := a, species := sp, variant := Variant.generic }
      = "No special characteristic".toList := by
  refine ⟨rfl, rfl, fun _ => rfl, fun _ => rfl, fun _ => rfl, fun t => ?_, rfl⟩
  simp [getSpecialCharacteristic]


/-! ## Invariants of the read loop -/

/-- The factory keeps the species string. -/
theorem getSpecies_createAnimal (s n : Str) (a : Int) : getSpecies (createAnimal s n a) = s := by
  unfold createAnimal
  split_ifs with h1 h2 h3 h4
  · rw [h1]; rfl
  · rw [h2]; rfl
  · rw [h3]; rfl
  · rw [h4]; rfl
  · rfl

theorem parsedAnimals_cons_some (l : Str) (ls : List Str) (r : IntakeRecord)
    (h : parseLine l = some r) :
    parsedAnimals (l :: ls) = createAnimal r.species r.name r.age :: parsedAnimals ls := by
  simp [parsedAnimals, parsedRecords, List.filterMap_cons, h]

theorem parsedAnimals_cons_none (l : Str) (ls : List Str) (h : parseLine l = none) :
    parsedAnimals (l :: ls) = parsedAnimals ls := by
  simp [parsedAnimals, parsedRecords, List.filterMap_cons, h]

/-- The animal vector after the loop: the animals already there followed by
the animals of the lines that parse, in input order. -/
theorem foldl_processLine_animals (lines : List Str) : ∀ st : ZooState,
    (lines.foldl processLine st).animals = st.animals ++ parsedAnimals lines := by
  induction lines with
  | nil => intro st; simp [parsedAnimals, parsedRecords]
  | cons l ls ih =>
    intro st
    rw [List.foldl_cons, ih]
    cases h : parseLine l with
    | none => rw [processLine_of_fail st l h, parsedAnimals_cons_none l ls h]
    | some r =>
      rw [processLine_of_parse st l r h, parsedAnimals_cons_some l ls r h]
      simp

theorem foldl_processLine_ascending (lines : List Str) : ∀ st : ZooState,
    KeysAscending st.speciesCount → KeysAscending (lines.foldl processLine st).speciesCount := by
  induction lines with
  | nil => intro st h; exact h
  | cons l ls ih =>
    intro st h
    rw [List.foldl_cons]
    apply ih
    cases hp : parseLine l with
    | none => rw [processLine_of_fail st l hp]; exact h
    | some r =>
      rw [processLine_of_parse st l r hp]
      exact mapIncr_ascending r.species st.speciesCount h

theorem foldl_processLine_sum (lines : List Str) : ∀ st : ZooState,
    ((lines.foldl processLine st).speciesCount.map Prod.snd).sum
      = (st.speciesCount.map Prod.snd).sum + ((parsedAnimals lines).length : Int) := by
  induction lines with
  | nil => intro st; simp [parsedAnimals, parsedRecords]
  | cons l ls ih =>
    intro st
    rw [List.foldl_cons, ih]
    cases hp : parseLine l with
    | none => rw [processLine_of_fail st l hp, parsedAnimals_cons_none l ls hp]
    | some r =>
      rw [processLine_of_parse st l r hp, parsedAnimals_cons_some l ls r hp]
      simp only [mapIncr_sum, List.length_cons, Nat.cast_add, Nat.cast_one]
      omega

theorem foldl_processLine_keys (lines : List Str) : ∀ (st : ZooState) (x : Str),
    x ∈ (lines.foldl processLine st).speciesCount.map Prod.fst ↔
      x ∈ st.speciesCount.map Prod.fst ∨ ∃ a ∈ parsedAnimals lines, getSpecies a = x := by
  induction lines with
  | nil => intro st x; simp [parsedAnimals, parsedRecords]
  | cons l ls ih =>
    intro st x
    rw [List.foldl_cons, ih]
    cases hp : parseLine l with
    | none => rw [processLine_of_fail st l hp, parsedAnimals_cons_none l ls hp]
    | some r =>
      rw [processLine_of_parse st l r hp, parsedAnimals_cons_some l ls r hp]
      simp only [mapIncr_keys, List.mem_cons, exists_eq_or_imp, getSpecies_createAnimal]
      constructor
      · rintro ((h | h) | h)
        · exact Or.inr (Or.inl h.symm)
        · exact Or.inl h
        · exact Or.inr (Or.inr h)
      · rintro (h | h | h)
        · exact Or.inl (Or.inr h)
        · exact Or.inl (Or.inl h.symm)
        · exact Or.inr h

theorem readLoop_animals (lines : List Str) : (readLoop lines).animals = parsedAnimals lines := by
  simp [readLoop, foldl_processLine_animals, ZooState.init]

theorem reportSections_keys (st : ZooState) :
    (reportSections st).map (fun sec => sec.1) = st.speciesCount.map Prod.fst := by
  simp [reportSections, List.map_map, Function.comp_def]

theorem reportSections_counts (st : ZooState) :
    (reportSections st).map (fun sec => sec.2.2) = st.speciesCount.map Prod.snd := by
  simp [reportSections, List.map_map, Function.comp_def]

theorem foldl_processLine_filter (lines : List Str) : ∀ st : ZooState,
    lines.foldl processLine st
      = (lines.filter (fun l => (parseLine l).isSome)).foldl processLine st := by
  induction lines with
  | nil => intro st; rfl
  | cons l ls ih =>
    intro st
    cases hp : parseLine l with
    | none =>
      rw [List.foldl_cons, processLine_of_fail st l hp, List.filter_cons_of_neg (by simp [hp])]
      exact ih st
    | some r =>
      rw [List.filter_cons_of_pos (by simp [hp]), List.foldl_cons, List.foldl_cons]
      exact ih _

/-! ## The claims on the report -/

/-- C6: for every input, the species of the report sections are in strictly
ascending lexicographic order, so no species has two sections; they are
exactly the species of the animals of the lines that parse; the animal lines
of a section are the lines of the parsed animals of that species, in input
order; and the report is the header, these sections in this order, and the
total line. -/
theorem C6_sections_ordered (lines : List Str) :
    ((reportSections (readLoop lines)).map (fun sec => sec.1)).Pairwise (fun a b => a < b) ∧
    ((reportSections (readLoop lines)).map (fun sec => sec.1)).Nodup ∧
    (∀ s : Str, s ∈ (reportSections (readLoop lines)).map (fun sec => sec.1) ↔
      ∃ a ∈ parsedAnimals lines, getSpecies a = s) ∧
    (∀ sec ∈ reportSections (readLoop lines),
      sec.2.1 = ((parsedAnimals lines).filter (fun a => getSpecies a = sec.1)).map animalLine) ∧
    report (readLoop lines)
      = reportHeader ++ ((reportSections (readLoop lines)).map renderSection).flatten
          ++ totalLine (parsedAnimals lines) := by
  have hasc : KeysAscending (readLoop lines).speciesCount :=
    foldl_processLine_ascending lines ZooState.init (by decide)
  have hpw : ((reportSections (readLoop lines)).map (fun sec => sec.1)).Pairwise
      (fun a b => a < b) := by
    rw [reportSections_keys]; exact hasc
  refine ⟨hpw, hpw.imp (fun h => ne_of_lt h), ?_, ?_, ?_⟩
  · intro s
    rw [reportSections_keys]
    have := foldl_processLine_keys lines ZooState.init s
    simpa [readLoop, ZooState.init] using this
  · intro sec hsec
    simp only [reportSections, List.mem_map] at hsec
    obtain ⟨p, _, rfl⟩ := hsec
    simp only [sectionLines, readLoop_animals]
  · simp only [report, readLoop_animals]

/-- C7: for every input, the counts printed in the species sections add up
to the number of animals in the list, which is the number of lines that
parse, and this number is the one printed in the last line
`Total animals: N`. -/
theorem C7_totals (lines : List Str) :
    ((reportSections (readLoop lines)).map (fun sec => sec.2.2)).sum
      = ((readLoop lines).animals.length : Int) ∧
    (readLoop lines).animals.length = (lines.filter (fun l => (parseLine l).isSome)).length ∧
    (∀ sec : Str × List Str × Int, renderSection sec
      = sec.1 ++ "s:\n".toList ++ "------\n".toList ++ (sec.2.1.map (fun l => l ++ ['\n'])).flatten
          ++ ("Total ".toList ++ sec.1 ++ "s: ".toList ++ intToString sec.2.2 ++ "\n\n".toList)) ∧
    report (readLoop lines)
      = reportHeader ++ ((reportSections (readLoop lines)).map renderSection).flatten
          ++ ("Total animals: ".toList ++ natToString (readLoop lines).animals.length ++ ['\n']) := by
  refine ⟨?_, ?_, ?_, rfl⟩
  · rw [reportSections_counts, readLoop_animals]
    have := foldl_processLine_sum lines ZooState.init
    simpa [readLoop, ZooState.init] using this
  · rw [readLoop_animals]
    simp only [parsedAnimals, parsedRecords, List.length_map]
    induction lines with
    | nil => rfl
    | cons l ls ih =>
      cases hp : parseLine l with
      | none =>
        rw [List.filterMap_cons_none hp, List.filter_cons_of_neg (by simp [hp])]
        exact ih
      | some r =>
        rw [List.filterMap_cons_some hp, List.filter_cons_of_pos (by simp [hp])]
        simp only [List.length_cons, ih]
  · intro sec
    simp only [renderSection, List.append_assoc]

/-- C8: the line of an animal is exactly `<name>, <age> years old` if and
only if its characteristic equals `No special characteristic`; otherwise it
is that text followed by ` - ` and the characteristic. -/
theorem C8_animal_line (a : Animal) :
    (animalLine a = getName a ++ ", ".toList ++ intToString (getAge a) ++ " years old".toList ↔
      getSpecialCharacteristic a = "No special characteristic".toList) ∧
    (getSpecialCharacteristic a ≠ "No special characteristic".toList →
      animalLine a = getName a ++ ", ".toList ++ intToString (getAge a) ++ " years old".toList
        ++ " - ".toList ++ getSpecialCharacteristic a) := by
  have hneq : getSpecialCharacteristic a ≠ "No special characteristic".toList →
      animalLine a = getName a ++ ", ".toList ++ intToString (getAge a) ++ " years old".toList
        ++ " - ".toList ++ getSpecialCharacteristic a := by
    intro h
    have h' : getSpecialCharacteristic a ≠ sentinel := h
    simp only [animalLine, if_pos h', List.append_assoc]
  refine ⟨⟨?_, ?_⟩, hneq⟩
  · intro h
    by_contra hc
    rw [hneq hc, List.append_assoc] at h
    have := List.append_right_eq_self.1 h
    simp at this
  · intro h
    have h' : ¬ getSpecialCharacteristic a ≠ sentinel := not_not.2 h
    simp only [animalLine, if_neg h', List.append_nil]

/-- C9: for every sequence of input lines, the lines that do not parse
change nothing and do not stop the loop: the containers and the report are
those of the same input with these lines removed; `OnlyOneField` and
`Name,NotANumber,Species` are such lines. -/
theorem C9_failing_lines_skipped (lines : List Str) :
    readLoop lines = readLoop (lines.filter (fun l => (parseLine l).isSome)) ∧
    report (readLoop lines) = report (readLoop (lines.filter (fun l => (parseLine l).isSome))) ∧
    (∀ (st : ZooState) (l : Str), parseLine l = none → processLine st l = st) ∧
    parseLine "OnlyOneField".toList = none ∧
    parseLine "Name,NotANumber,Species".toList = none := by
  have h : readLoop lines = readLoop (lines.filter (fun l => (parseLine l).isSome)) :=
    foldl_processLine_filter lines ZooState.init
  refine ⟨h, by rw [← h], processLine_of_fail, by decide, by decide⟩

set_option maxRecDepth 100000 in
/-- C10: the four lines `Leo,5,Lion`, `Spot,3,Hyena`, `Baloo,10,Bear`,
`Zelda,2,Zebra` give the sections Bear, Hyena, Lion, Zebra in this order,
each with its one animal; the lines of Leo and Baloo carry the
characteristic, the line of Zelda has no suffix; the last line is
`Total animals: 4`; the same holds for `main` run on a file with these four
lines. -/
theorem C10_example_report :
    reportSections (readLoop ["Leo,5,Lion".toList, "Spot,3,Hyena".toList,
        "Baloo,10,Bear".toList, "Zelda,2,Zebra".toList])
      = [("Bear".toList, ["Baloo, 10 years old - Grizzly bear".toList], 1),
         ("Hyena".toList, ["Spot, 3 years old - Laughing hyena".toList], 1),
         ("Lion".toList, ["Leo, 5 years old - Female lion (huntress)".toList], 1),
         ("Zebra".toList, ["Zelda, 2 years old".toList], 1)] ∧
    totalLine (readLoop ["Leo,5,Lion".toList, "Spot,3,Hyena".toList,
        "Baloo,10,Bear".toList, "Zelda,2,Zebra".toList]).animals
      = "Total animals: 4\n".toList ∧
    report (readLoop ["Leo,5,Lion".toList, "Spot,3,Hyena".toList,
        "Baloo,10,Bear".toList, "Zelda,2,Zebra".toList])
      = ("Zoo Animal Intake Report\n========================\n\n" ++
         "Bears:\n------\nBaloo, 10 years old - Grizzly bear\nTotal Bears: 1\n\n" ++
         "Hyenas:\n------\nSpot, 3 years old - Laughing hyena\nTotal Hyenas: 1\n\n" ++
         "Lions:\n------\nLeo, 5 years old - Female lion (huntress)\nTotal Lions: 1\n\n" ++
         "Zebras:\n------\nZelda, 2 years old\nTotal Zebras: 1\n\n" ++
         "Total animals: 4\n").toList ∧
    main (some "Leo,5,Lion\nSpot,3,Hyena\nBaloo,10,Bear\nZelda,2,Zebra\n".toList) true
      = (0, some (report (readLoop ["Leo,5,Lion".toList, "Spot,3,Hyena".toList,
          "Baloo,10,Bear".toList, "Zelda,2,Zebra".toList]))) := by
  decide


/-! ## Counts and listed animals -/

/-- In a map with ascending keys an entry is the one the lookup finds. -/
theorem mapCount_of_mem (m : List (Str × Int)) (k : Str) (v : Int) (h : KeysAscending m)
    (hm : (k, v) ∈ m) : mapCount m k = v := by
  unfold KeysAscending at h
  induction m with
  | nil => simp at hm
  | cons p m ih =>
    obtain ⟨a, w⟩ := p
    simp only [List.map_cons, List.pairwise_cons] at h
    rcases List.mem_cons.1 hm with e | hm'
    · simp only [Prod.mk.injEq] at e
      obtain ⟨rfl, rfl⟩ := e
      simp [mapCount, List.lookup]
    · have hlt : a < k := h.1 k (List.mem_map.2 ⟨(k, v), hm', rfl⟩)
      have hne : (k == a) = false := by simpa using (ne_of_lt hlt).symm
      have := ih h.2 hm'
      simp only [mapCount, List.lookup, hne] at this ⊢
      exact this

theorem speciesTally_append_singleton (animals : List Animal) (a : Animal) (k : Str) :
    speciesTally (animals ++ [a]) k
      = speciesTally animals k + (if getSpecies a = k then 1 else 0) := by
  unfold speciesTally
  rw [List.filter_append, List.length_append]
  by_cases h : getSpecies a = k
  · simp [h]
  · simp [h]

/-- The value the map holds for a species is the number of animals of this
species in the vector, as long as this was so before the loop. -/
theorem foldl_processLine_mapCount (lines : List Str) : ∀ st : ZooState,
    KeysAscending st.speciesCount →
    (∀ k, mapCount st.speciesCount k = (speciesTally st.animals k : Int)) →
    ∀ k, mapCount (lines.foldl processLine st).speciesCount k
      = (speciesTally (lines.foldl processLine st).animals k : Int) := by
  induction lines with
  | nil => intro st _ h k; exact h k
  | cons l ls ih =>
    intro st hasc h
    rw [List.foldl_cons]
    cases hp : parseLine l with
    | none => rw [processLine_of_fail st l hp]; exact ih st hasc h
    | some r =>
      rw [processLine_of_parse st l r hp]
      apply ih
      · exact mapIncr_ascending r.species st.speciesCount hasc
      · intro k
        simp only [speciesTally_append_singleton, getSpecies_createAnimal]
        by_cases e : r.species = k
        · subst e
          rw [mapCount_mapIncr_self _ _ hasc, h]
          simp
        · rw [mapCount_mapIncr_other _ _ _ (fun e' => e e'.symm), h]
          simp [e]

/-- After the read loop every entry of the map holds the number of parsed
animals of its species. -/
theorem readLoop_entry_count (lines : List Str) (p : Str × Int)
    (hp : p ∈ (readLoop lines).speciesCount) :
    p.2 = (speciesTally (parsedAnimals lines) p.1 : Int) := by
  have hasc : KeysAscending (readLoop lines).speciesCount :=
    foldl_processLine_ascending lines ZooState.init (by decide)
  have hc := foldl_processLine_mapCount lines ZooState.init (by decide)
    (by intro k; rfl) p.1
  have hm := mapCount_of_mem (readLoop lines).speciesCount p.1 p.2 hasc hp
  rw [← readLoop_animals, ← hm]
  exact hc

theorem sectionLines_length (animals : List Animal) (k : Str) :
    (sectionLines animals k).length = speciesTally animals k := by
  simp [sectionLines, speciesTally]


/-- The block the report writes for the species `S`, from the animal vector
alone: heading, rule, the lines of the animals of species `S`, the species
total with the number of these animals, and a blank line. -/
theorem renderSection_of_entry (lines : List Str) (p : Str × Int)
    (hp : p ∈ (readLoop lines).speciesCount) :
    renderSection (p.1, sectionLines (readLoop lines).animals p.1, p.2)
      = p.1 ++ "s:\n".toList ++ "------\n".toList ++
          (((parsedAnimals lines).filter (fun a => getSpecies a = p.1)).map
            (fun a => animalLine a ++ "\n".toList)).flatten ++
          "Total ".toList ++ p.1 ++ "s: ".toList ++
          intToString (speciesTally (parsedAnimals lines) p.1 : Int) ++
          "\n".toList ++ "\n".toList := by
  rw [readLoop_entry_count lines p hp, readLoop_animals]
  simp [renderSection, sectionLines, List.map_map, Function.comp_def]

theorem readLoop_speciesCount_nil (lines : List Str) (h : parsedAnimals lines = []) :
    (readLoop lines).speciesCount = [] := by
  cases hm : (readLoop lines).speciesCount with
  | nil => rfl
  | cons p m =>
    have hk : p.1 ∈ (readLoop lines).speciesCount.map Prod.fst := by
      rw [hm]; simp
    have := (foldl_processLine_keys lines ZooState.init p.1).1 hk
    simp [ZooState.init, h] at this

/-! ## The claims on the report text, the sounds and the exit status -/

/-- C11: for every input the report is the two header lines and a blank
line, then for each species `S` of the map, in its ascending order, the block
`S` + `s:`, the rule `------`, the lines of the animals of species `S`,
`Total ` + `S` + `s: ` + the number of these animals and a blank line, then
`Total animals: ` + the number of all animals; the plural is `S` followed by
one `s` whatever `S` is; the species of the map are in strictly ascending
order and are exactly the species of the parsed animals; with no parsed
animal the report is the header followed by `Total animals: 0`. -/
theorem C11_report_text (lines : List Str) :
    report (readLoop lines)
      = "Zoo Animal Intake Report\n".toList ++ "========================\n".toList ++
          "\n".toList ++
        (((readLoop lines).speciesCount.map Prod.fst).map (fun S =>
          S ++ "s:\n".toList ++ "------\n".toList ++
          (((parsedAnimals lines).filter (fun a => getSpecies a = S)).map
            (fun a => animalLine a ++ "\n".toList)).flatten ++
          "Total ".toList ++ S ++ "s: ".toList ++
          intToString (speciesTally (parsedAnimals lines) S : Int) ++
          "\n".toList ++ "\n".toList)).flatten ++
        "Total animals: ".toList ++ natToString (parsedAnimals lines).length ++ "\n".toList ∧
    ((readLoop lines).speciesCount.map Prod.fst).Pairwise (fun a b => a < b) ∧
    (∀ s : Str, s ∈ (readLoop lines).speciesCount.map Prod.fst ↔
      ∃ a ∈ parsedAnimals lines, getSpecies a = s) ∧
    (parsedAnimals lines = [] → report (readLoop lines)
      = "Zoo Animal Intake Report\n========================\n\nTotal animals: 0\n".toList) := by
  refine ⟨?_, ?_, ?_, ?_⟩
  · have hblocks : (reportSections (readLoop lines)).map renderSection
        = ((readLoop lines).speciesCount.map Prod.fst).map (fun S =>
          S ++ "s:\n".toList ++ "------\n".toList ++
          (((parsedAnimals lines).filter (fun a => getSpecies a = S)).map
            (fun a => animalLine a ++ "\n".toList)).flatten ++
          "Total ".toList ++ S ++ "s: ".toList ++
          intToString (speciesTally (parsedAnimals lines) S : Int) ++
          "\n".toList ++ "\n".toList) := by
      simp only [reportSections, List.map_map]
      apply List.map_congr_left
      intro p hp
      simp only [Function.comp_def]
      exact renderSection_of_entry lines p hp
    simp only [report, hblocks, readLoop_animals, totalLine, reportHeader]
    simp
  · exact foldl_processLine_ascending lines ZooState.init (by decide)
  · intro s
    have := foldl_processLine_keys lines ZooState.init s
    simpa [readLoop, ZooState.init] using this
  · intro h
    simp only [report, reportSections, readLoop_speciesCount_nil lines h, readLoop_animals, h]
    decide

/-- C12: whatever the other fields are, `makeSound` returns `Hee-hee-hee!`
for a hyena, `ROAR!` for a lion, `Growl!` for a tiger, `Zzzzz...` for a bear
that hibernates and `GROWL!` for one that does not, and
`Generic animal sound` for a record of the base class. -/
theorem C12_makeSound (n sp : Str) (a : Int) :
    (∀ l : Bool, makeSound { name := n, age := a, species := sp, variant := Variant.hyena l }
      = "Hee-hee-hee!".toList) ∧
    (∀ (m : Bool) (len : Rat),
      makeSound { name := n, age := a, species := sp, variant := Variant.lion m len }
        = "ROAR!".toList) ∧
    (∀ k : Int, makeSound { name := n, age := a, species := sp, variant := Variant.tiger k }
      = "Growl!".toList) ∧
    (∀ t : Str, makeSound { name := n, age := a, species := sp, variant := Variant.bear t true }
      = "Zzzzz...".toList) ∧
    (∀ t : Str, makeSound { name := n, age := a, species := sp, variant := Variant.bear t false }
      = "GROWL!".toList) ∧
    makeSound { name := n, age := a, species := sp, variant := Variant.generic }
      = "Generic animal sound".toList := by
  refine ⟨fun _ => rfl, fun _ _ => rfl, fun _ => rfl, fun _ => rfl, fun t => ?_, rfl⟩
  simp [makeSound]

/-! ## The setters of class `Lion` -/

theorem setIsMale_invariant (a : Animal) (male : Bool) : LionInvariant (setIsMale a male) := by
  unfold setIsMale
  split
  · cases male <;> simp [LionInvariant]
  · rename_i h
    unfold LionInvariant
    split
    · rename_i m l hv
      exact absurd hv (h m l)
    · trivial

theorem setManeLength_invariant (a : Animal) (length : Rat) (h : LionInvariant a) :
    LionInvariant (setManeLength a length) := by
  unfold setManeLength
  split
  · rename_i m l hv
    unfold LionInvariant at h
    rw [hv] at h
    simp only at h
    cases m
    · simpa [LionInvariant] using h
    · simp [LionInvariant]
  · exact h

/-- Both setters keep the property: from a lion that satisfies it, every
sequence of setter calls leads to a lion that satisfies it. -/
theorem applyCalls_invariant (calls : List LionCall) : ∀ a : Animal,
    LionInvariant a → LionInvariant (applyCalls a calls) := by
  induction calls with
  | nil => intro a h; exact h
  | cons c cs ih =>
    intro a h
    simp only [applyCalls, List.foldl_cons]
    apply ih
    cases c with
    | setIsMale male => exact setIsMale_invariant a male
    | setManeLength length => exact setManeLength_invariant a length h

/-- C13, the constructor at `Lion("Leo", 5, false, 5.0)`: the record is not
male and keeps the mane length 5; a following `setManeLength` does not touch
it, and only `setIsMale(false)` brings the length to 0. -/
theorem C13_constructor_keeps_mane :
    (mkLion "Leo".toList 5 false 5).variant = Variant.lion false 5 ∧
    ¬ LionInvariant (mkLion "Leo".toList 5 false 5) ∧
    ¬ LionInvariant (applyCalls (mkLion "Leo".toList 5 false 5) [LionCall.setManeLength 7]) ∧
    LionInvariant (applyCalls (mkLion "Leo".toList 5 false 5) [LionCall.setIsMale false]) := by
  decide

/-- C17: `createAnimal` returns a record whose species is the string it was
given, also for the four known species; hence, for every input, the count
printed in the total of a section is the number of animal lines of that
section. -/
theorem C17_count_matches_lines :
    (∀ (s n : Str) (a : Int), getSpecies (createAnimal s n a) = s) ∧
    (∀ (lines : List Str) (sec : Str × List Str × Int),
      sec ∈ reportSections (readLoop lines) → sec.2.2 = (sec.2.1.length : Int)) := by
  refine ⟨getSpecies_createAnimal, ?_⟩
  intro lines sec hsec
  simp only [reportSections, List.mem_map] at hsec
  obtain ⟨p, hp, rfl⟩ := hsec
  simp only [sectionLines_length, readLoop_animals]
  exact readLoop_entry_count lines p hp


/-- C14: `main` returns 0 if and only if both files open, and 1 otherwise.
When the input does not open, the only actions are the failed open and the
error message: the output file is neither opened nor written. When the input
opens and the output does not, the status is 1 and nothing is written. When
both open, the report of the lines read is written once. The function `main`
of the pipeline has this status and this written text. -/
theorem C14_exit_status (input : Option Str) (outputOpens : Bool) :
    ((mainTrace input outputOpens).2 = 0 ↔ input.isSome = true ∧ outputOpens = true) ∧
    ((mainTrace input outputOpens).2 = 0 ∨ (mainTrace input outputOpens).2 = 1) ∧
    mainTrace none outputOpens
      = ([Event.openInput false, Event.cerr "Error: Could not open input file.\n".toList], 1) ∧
    (∀ e ∈ (mainTrace none outputOpens).1,
      (∀ ok : Bool, e ≠ Event.openOutput ok) ∧ ∀ t : Str, e ≠ Event.write t) ∧
    (∀ content : Str, (mainTrace (some content) false).2 = 1 ∧
      Event.openOutput false ∈ (mainTrace (some content) false).1 ∧
      ∀ e ∈ (mainTrace (some content) false).1, ∀ t : Str, e ≠ Event.write t) ∧
    (∀ content : Str, mainTrace (some content) true
      = ([Event.openInput true, Event.openOutput true,
          Event.write (report (readLoop (fileLines content))),
          Event.cout "Animal processing complete. Report generated in newAnimals.txt\n".toList],
         0)) ∧
    (main input outputOpens).1 = (mainTrace input outputOpens).2 ∧
    (∀ t : Str, (main input outputOpens).2 = some t ↔
      Event.write t ∈ (mainTrace input outputOpens).1) := by
  refine ⟨?_, ?_, rfl, ?_, ?_, fun _ => rfl, ?_, ?_⟩
  · cases input <;> cases outputOpens <;> simp [mainTrace]
  · cases input <;> cases outputOpens <;> simp [mainTrace]
  · intro e he
    simp only [mainTrace, List.mem_cons, List.mem_singleton, List.mem_nil_iff, or_false] at he
    rcases he with rfl | rfl <;> simp
  · intro content
    refine ⟨rfl, by simp [mainTrace], ?_⟩
    intro e he t
    simp only [mainTrace, List.mem_cons, List.mem_singleton, List.mem_nil_iff, or_false,
      Bool.false_eq_true, if_false] at he
    rcases he with rfl | rfl | rfl <;> simp
  · cases input <;> cases outputOpens <;> simp [main, mainTrace]
  · intro t
    cases input <;> cases outputOpens <;> simp [main, mainTrace, eq_comm]

/-- C15: for every animal list and every key `k`, the section of `k` lists
the animals whose species field equals `k`, in the order of the list, and no
other; the dynamic type plays no part: a record of the base class with the
species field `Lion` stands in the section of `Lion` next to the lions. -/
theorem C15_section_by_species_field (animals : List Animal) (k : Str) :
    sectionLines animals k = (animals.filter (fun a => a.species = k)).map animalLine ∧
    (∀ a : Animal, a ∈ animals.filter (fun a => a.species = k) ↔ a ∈ animals ∧ a.species = k) ∧
    (animals.filter (fun a => a.species = k)).Sublist animals ∧
    sectionLines
        [mkLion "Leo".toList 5, mkTiger "Tig".toList 4, mkAnimal "Rex".toList 3 "Lion".toList]
        "Lion".toList
      = ["Leo, 5 years old - Female lion (huntress)".toList, "Rex, 3 years old".toList] ∧
    renderSection ("Lion".toList, sectionLines
        [mkLion "Leo".toList 5, mkTiger "Tig".toList 4, mkAnimal "Rex".toList 3 "Lion".toList]
        "Lion".toList, 2)
      = ("Lions:\n------\nLeo, 5 years old - Female lion (huntress)\nRex, 3 years old\n" ++
         "Total Lions: 2\n\n").toList := by
  refine ⟨rfl, ?_, List.filter_sublist _, by decide, by decide⟩
  intro a
  simp [List.mem_filter]

/-- C16: after the age the parser drops one character without looking at
it: a name without comma, the decimal text of a 32-bit `int`, any one
character that is not a digit and a non-empty rest parse into that name,
that age and that rest as species, and the iteration appends the animal and
counts the species. -/
theorem C16_separator_unchecked (N S : Str) (i : Int) (c : Char) (st : ZooState)
    (hN : ',' ∉ N) (hlo : INT_MIN ≤ i) (hhi : i ≤ INT_MAX) (hc : isdigit c = false)
    (hS : S ≠ []) (hnl : '\n' ∉ S) :
    parseLine (N ++ ',' :: (intToString i ++ c :: S))
        = some { name := N, age := i, species := S } ∧
      processLine st (N ++ ',' :: (intToString i ++ c :: S))
        = { animals := st.animals ++ [createAnimal S N i],
            speciesCount := mapIncr S st.speciesCount } := by
  have hp := parseLine_sep N S i c hN hlo hhi hc hS hnl
  exact ⟨hp, processLine_of_parse st _ _ hp⟩

/-- C16, instance: the line `Leo,5xLion` gives a lion named Leo aged 5; the
characters `x`, the blank and `;` are not digits. -/
theorem C16_separator_unchecked_witness :
    (isdigit 'x' = false ∧ isdigit ' ' = false ∧ isdigit ';' = false) ∧
    "Leo".toList ++ ',' :: (intToString 5 ++ 'x' :: "Lion".toList) = "Leo,5xLion".toList ∧
    (parseLine ("Leo".toList ++ ',' :: (intToString 5 ++ 'x' :: "Lion".toList))
        = some { name := "Leo".toList, age := 5, species := "Lion".toList } ∧
      processLine ZooState.init ("Leo".toList ++ ',' :: (intToString 5 ++ 'x' :: "Lion".toList))
        = { animals := ZooState.init.animals ++ [createAnimal "Lion".toList "Leo".toList 5],
            speciesCount := mapIncr "Lion".toList ZooState.init.speciesCount }) ∧
    createAnimal "Lion".toList "Leo".toList 5 = mkLion "Leo".toList 5 :=
  ⟨by decide, by decide,
   C16_separator_unchecked "Leo".toList "Lion".toList 5 'x' ZooState.init
     (by decide) (by decide) (by decide) (by decide) (by decide) (by decide),
   by decide⟩


/-! ## The sentinel and the variants -/

theorem bear_text_ne_sentinel (t : Str) : t ++ " bear".toList ≠ sentinel := by
  intro h
  have := congrArg List.reverse h
  simp [sentinel] at this

theorem bear_hibernating_text_ne_sentinel (t : Str) :
    t ++ " bear".toList ++ " (hibernating)".toList ≠ sentinel := by
  intro h
  have := congrArg List.reverse h
  simp [sentinel] at this

/-- Only the base class returns the sentinel, whatever the fields of the
subclasses hold. -/
theorem characteristic_eq_sentinel_iff (a : Animal) :
    getSpecialCharacteristic a = sentinel ↔ a.variant = Variant.generic := by
  obtain ⟨n, i, sp, v⟩ := a
  cases v with
  | generic => simp [getSpecialCharacteristic, sentinel]
  | hyena l => cases l <;> simp [getSpecialCharacteristic, sentinel]
  | lion m len => cases m <;> simp [getSpecialCharacteristic, sentinel]
  | tiger k => simp [getSpecialCharacteristic, sentinel]
  | bear t h =>
    cases h
    · show t ++ " bear".toList ++ [] = sentinel ↔ _
      rw [List.append_nil]
      constructor
      · intro h; exact absurd h (bear_text_ne_sentinel t)
      · intro h; cases h
    · show t ++ " bear".toList ++ " (hibernating)".toList = sentinel ↔ _
      constructor
      · intro h; exact absurd h (bear_hibernating_text_ne_sentinel t)
      · intro h; cases h

theorem animalLine_plain_iff (a : Animal) :
    animalLine a = getName a ++ ", ".toList ++ intToString (getAge a) ++ " years old".toList ↔
      getSpecialCharacteristic a = sentinel := by
  constructor
  · intro h
    by_contra hc
    simp only [animalLine, if_pos hc] at h
    have := List.append_right_eq_self.1 h
    simp at this
  · intro h
    have h' : ¬ getSpecialCharacteristic a ≠ sentinel := not_not.2 h
    simp only [animalLine, if_neg h', List.append_nil]

theorem createAnimal_variant_generic_iff (s n : Str) (i : Int) :
    (createAnimal s n i).variant = Variant.generic ↔
      s ≠ "Hyena".toList ∧ s ≠ "Lion".toList ∧ s ≠ "Tiger".toList ∧ s ≠ "Bear".toList := by
  unfold createAnimal
  split_ifs with h1 h2 h3 h4
  · simp [mkHyena, h1]
  · simp only [mkLion]; constructor
    · intro h; cases h
    · intro h; exact absurd h2 h.2.1
  · simp only [mkTiger]; constructor
    · intro h; cases h
    · intro h; exact absurd h3 h.2.2.1
  · simp only [mkBear]; constructor
    · intro h; cases h
    · intro h; exact absurd h4 h.2.2.2
  · simp only [mkAnimal, true_iff]
    exact ⟨h1, h2, h3, h4⟩

/-- C18: for every record, whatever its fields hold, the characteristic
equals `No special characteristic` if and only if the record is of the base
class; hence the line of an animal made by `createAnimal` has no suffix
exactly when its species string is none of `Hyena`, `Lion`, `Tiger`,
`Bear`. -/
theorem C18_sentinel_iff_generic (a : Animal) :
    (getSpecialCharacteristic a = "No special characteristic".toList ↔
      a.variant = Variant.generic) ∧
    (∀ (s n : Str) (i : Int),
      animalLine (createAnimal s n i) = n ++ ", ".toList ++ intToString i ++ " years old".toList ↔
        s ≠ "Hyena".toList ∧ s ≠ "Lion".toList ∧ s ≠ "Tiger".toList ∧ s ≠ "Bear".toList) := by
  refine ⟨characteristic_eq_sentinel_iff a, ?_⟩
  intro s n i
  rw [← createAnimal_variant_generic_iff s n i, ← characteristic_eq_sentinel_iff,
    ← animalLine_plain_iff]
  have hn : getName (createAnimal s n i) = n := by
    unfold createAnimal; split_ifs <;> rfl
  have ha : getAge (createAnimal s n i) = i := by
    unfold createAnimal; split_ifs <;> rfl
  rw [hn, ha]


/-! ## The report as a function of the records of each species -/

theorem parsedAnimals_filter (lines : List Str) (k : Str) :
    (parsedAnimals lines).filter (fun a => getSpecies a = k)
      = ((parsedRecords lines).filter (fun r => r.species = k)).map
          (fun r => createAnimal r.species r.name r.age) := by
  unfold parsedAnimals
  rw [List.filter_map]
  congr 1
  apply List.filter_congr
  intro r _
  simp [getSpecies_createAnimal]

theorem readLoop_speciesCount_eq (lines : List Str) :
    (readLoop lines).speciesCount
      = ((readLoop lines).speciesCount.map Prod.fst).map
          (fun k => (k, (speciesTally (parsedAnimals lines) k : Int))) := by
  rw [List.map_map]
  conv_lhs => rw [← List.map_id (readLoop lines).speciesCount]
  apply List.map_congr_left
  intro p hp
  simp only [id, Function.comp_def]
  exact Prod.ext rfl (readLoop_entry_count lines p hp)

/-- Two strictly ascending lists with the same members are the same list. -/
theorem ascending_ext (l₁ l₂ : List Str) (h₁ : l₁.Pairwise (fun a b => a < b))
    (h₂ : l₂.Pairwise (fun a b => a < b)) (h : ∀ x, x ∈ l₁ ↔ x ∈ l₂) : l₁ = l₂ := by
  have n₁ : l₁.Nodup := h₁.imp (fun hab => ne_of_lt hab)
  have n₂ : l₂.Nodup := h₂.imp (fun hab => ne_of_lt hab)
  have hp : l₁.Perm l₂ := (List.perm_ext_iff_of_nodup n₁ n₂).2 h
  exact List.eq_of_perm_of_sorted hp h₁ h₂

theorem readLoop_keys_ext (lines₁ lines₂ : List Str)
    (h : ∀ s : Str, (parsedAnimals lines₁).filter (fun a => getSpecies a = s)
      = (parsedAnimals lines₂).filter (fun a => getSpecies a = s)) :
    (readLoop lines₁).speciesCount.map Prod.fst = (readLoop lines₂).speciesCount.map Prod.fst := by
  apply ascending_ext
  · exact foldl_processLine_ascending lines₁ ZooState.init (by decide)
  · exact foldl_processLine_ascending lines₂ ZooState.init (by decide)
  · intro x
    have k₁ := foldl_processLine_keys lines₁ ZooState.init x
    have k₂ := foldl_processLine_keys lines₂ ZooState.init x
    simp only [ZooState.init, List.map_nil, List.not_mem_nil, false_or] at k₁ k₂
    have e : (∃ a ∈ parsedAnimals lines₁, getSpecies a = x) ↔
        (∃ a ∈ parsedAnimals lines₂, getSpecies a = x) := by
      have hx := h x
      constructor
      · rintro ⟨a, ha, hs⟩
        have : a ∈ (parsedAnimals lines₁).filter (fun a => getSpecies a = x) := by
          simp [List.mem_filter, ha, hs]
        rw [hx] at this
        simp only [List.mem_filter, decide_eq_true_eq] at this
        exact ⟨a, this.1, this.2⟩
      · rintro ⟨a, ha, hs⟩
        have : a ∈ (parsedAnimals lines₂).filter (fun a => getSpecies a = x) := by
          simp [List.mem_filter, ha, hs]
        rw [← hx] at this
        simp only [List.mem_filter, decide_eq_true_eq] at this
        exact ⟨a, this.1, this.2⟩
    exact (k₁.trans e).trans k₂.symm

/-- The report is determined by the animals of each species, in their order,
and by the number of animals. -/
theorem report_ext (lines₁ lines₂ : List Str)
    (h : ∀ s : Str, (parsedAnimals lines₁).filter (fun a => getSpecies a = s)
      = (parsedAnimals lines₂).filter (fun a => getSpecies a = s))
    (hlen : (parsedAnimals lines₁).length = (parsedAnimals lines₂).length) :
    report (readLoop lines₁) = report (readLoop lines₂) := by
  have htally : ∀ s, speciesTally (parsedAnimals lines₁) s = speciesTally (parsedAnimals lines₂) s := by
    intro s; simp only [speciesTally, h s]
  have hmap : (readLoop lines₁).speciesCount = (readLoop lines₂).speciesCount := by
    rw [readLoop_speciesCount_eq lines₁, readLoop_speciesCount_eq lines₂,
      readLoop_keys_ext lines₁ lines₂ h]
    simp only [htally]
  have hsec : reportSections (readLoop lines₁) = reportSections (readLoop lines₂) := by
    simp only [reportSections, hmap, readLoop_animals, sectionLines, h]
  simp only [report, hsec, totalLine, readLoop_animals, hlen]

/-- C19: the report depends only on the records of each species in their
order: when the parsed records of two inputs are permutations of each other
and, for every species string, the records of that species come in the same
order in both, the two reports are the same text. -/
theorem C19_report_per_species (lines₁ lines₂ : List Str)
    (hperm : (parsedRecords lines₁).Perm (parsedRecords lines₂))
    (hord : ∀ s : Str, (parsedRecords lines₁).filter (fun r => r.species = s)
      = (parsedRecords lines₂).filter (fun r => r.species = s)) :
    report (readLoop lines₁) = report (readLoop lines₂) := by
  apply report_ext
  · intro s
    rw [parsedAnimals_filter, parsedAnimals_filter, hord s]
  · simp only [parsedAnimals, List.length_map]
    exact hperm.length_eq


/-- C19, instance: the hyena line moved before the two lion lines, which
keep their order; the two inputs differ and give the same report. -/
theorem C19_report_per_species_witness :
    ["Leo,5,Lion".toList, "Spot,3,Hyena".toList, "Rex,7,Lion".toList]
      ≠ ["Spot,3,Hyena".toList, "Leo,5,Lion".toList, "Rex,7,Lion".toList] ∧
    report (readLoop ["Leo,5,Lion".toList, "Spot,3,Hyena".toList, "Rex,7,Lion".toList])
      = report (readLoop ["Spot,3,Hyena".toList, "Leo,5,Lion".toList, "Rex,7,Lion".toList]) := by
  have e₁ : parsedRecords ["Leo,5,Lion".toList, "Spot,3,Hyena".toList, "Rex,7,Lion".toList]
      = [{ name := "Leo".toList, age := 5, species := "Lion".toList },
         { name := "Spot".toList, age := 3, species := "Hyena".toList },
         { name := "Rex".toList, age := 7, species := "Lion".toList }] := by decide
  have e₂ : parsedRecords ["Spot,3,Hyena".toList, "Leo,5,Lion".toList, "Rex,7,Lion".toList]
      = [{ name := "Spot".toList, age := 3, species := "Hyena".toList },
         { name := "Leo".toList, age := 5, species := "Lion".toList },
         { name := "Rex".toList, age := 7, species := "Lion".toList }] := by decide
  refine ⟨by decide, C19_report_per_species _ _ ?_ ?_⟩
  · rw [e₁, e₂]
    exact List.Perm.swap _ _ _
  · intro s
    rw [e₁, e₂]
    by_cases hl : s = "Lion".toList
    · subst hl; decide
    · by_cases hh : s = "Hyena".toList
      · subst hh; decide
      · have hl' : ¬ ['L', 'i', 'o', 'n'] = s := fun e => hl e.symm
        have hh' : ¬ ['H', 'y', 'e', 'n', 'a'] = s := fun e => hh e.symm
        simp [List.filter_cons, hl', hh']

end Zoo
